import Mathlib

/-!
# go2json — verification of the AST-to-JSON serialization engine

Shallow embedding of `go2json2.go`. The Go program converts a `go/ast`
syntax tree into a generic `ASTNode` tree and serializes it as JSON.

Modelling choices, tied to the source:

* A syntax node's reference identity is a `Nat`; the node graph is a total
  map `Heap : Nat → GoAst`. `GoAst` is a closed sum with one constructor
  per `case` of the type switch in `marshalAST` (lines 40–630), with the
  struct fields of the corresponding `go/ast` type that the program or
  `ast.Walk` touches; an extra constructor `unsupported` stands for any
  `ast.Node` type outside the switch (its `default` branch panics).
  Fields that are nilable pointers/interfaces in Go are `Option Nat`;
  slices are `List Nat`.
* `marshalAST`'s recursion is mutual between the function itself and the
  trailing `ast.Inspect` sweep (lines 632–641). It is embedded as a
  single fuel-indexed interpreter `run` over a `Task` type; fuel
  exhaustion is the outcome `MOut.diverge`, a Go `panic` is
  `MOut.panicMsg`, and a normal return is `MOut.ok emitted visited`,
  where `emitted` is the list of nodes the call hands to its caller for
  appending (`[]` embeds Go's `nil` return, a singleton embeds a non-nil
  `*ASTNode`).
* The `visited` map (`map[ast.Node]bool`, only ever queried for
  membership) is a `List Nat` of the identities marked `true`.
* JSON rendering models `jsoniter.ConfigCompatibleWithStandardLibrary`
  with `SetIndent("", "  ")`: struct-field order `Name, Type, Children,
  Value, Comments`, `omitempty` on all but `Type`, std-lib string
  escaping (including HTML escaping), and a trailing newline from
  `Encoder.Encode`.
-/

namespace Go2Json

/-- Output record, from the Go struct `ASTNode` (lines 16–22). Go's
`Name string` has zero value `""` (which `omitempty` drops); `Value` is an
`interface{}` that the program only ever sets to a `string`, so it is
`Option String` (`none` = the nil interface). Field order matches the Go
struct declaration order, which fixes the JSON key order. -/
structure ASTNode where
  name : String
  type : String
  children : List ASTNode
  value : Option String
  comments : List String

/-- All nodes of a forest of `ASTNode`s, each node listed before its
descendants. Used to state per-node invariants and to count emissions. -/
def allNodesL : List ASTNode → List ASTNode
  | [] => []
  | ⟨nm, ty, cs, vl, cm⟩ :: ns =>
    ⟨nm, ty, cs, vl, cm⟩ :: (allNodesL cs ++ allNodesL ns)

/-- One constructor per `case` of the type switch in `marshalAST`, holding
the fields of the corresponding `go/ast` struct that either the switch or
`ast.Walk` visits. Single nilable references are `Option Nat`, mandatory
`*ast.Ident` references (`File.Name`, `FuncDecl.Name`, `TypeSpec.Name`)
are `Nat`, slices are `List Nat`. `unsupported` stands for an `ast.Node`
type with no `case`, carrying the `%T` rendering of that type. -/
inductive GoAst where
  | ident (name : String)
  | basicLit (value : String)
  | file (doc : Option Nat) (name : Nat) (decls : List Nat)
  | ellipsis (elt : Option Nat)
  | genDecl (doc : Option Nat) (specs : List Nat)
  | funcDecl (doc : Option Nat) (recv : Option Nat) (name : Nat)
      (type : Option Nat) (body : Option Nat)
  | typeSpec (doc : Option Nat) (name : Nat) (typeParams : Option Nat)
      (type : Option Nat) (com : Option Nat)
  | valueSpec (doc : Option Nat) (names : List Nat) (type : Option Nat)
      (values : List Nat) (com : Option Nat)
  | assignStmt (lhs : List Nat) (rhs : List Nat)
  | returnStmt (results : List Nat)
  | ifStmt (init : Option Nat) (cond : Option Nat) (body : Option Nat)
      (els : Option Nat)
  | forStmt (init : Option Nat) (cond : Option Nat) (post : Option Nat)
      (body : Option Nat)
  | rangeStmt (key : Option Nat) (value : Option Nat) (x : Option Nat)
      (body : Option Nat)
  | blockStmt (list : List Nat)
  | exprStmt (x : Option Nat)
  | callExpr (f : Option Nat) (args : List Nat)
  | selectorExpr (x : Option Nat) (sel : Option Nat)
  | indexListExpr (x : Option Nat) (indices : List Nat)
  | indexExpr (x : Option Nat) (index : Option Nat)
  | sliceExpr (x : Option Nat) (low : Option Nat) (high : Option Nat)
      (max : Option Nat)
  | structType (fields : Option Nat)
  | funcType (typeParams : Option Nat) (params : Option Nat)
      (results : Option Nat)
  | interfaceType (methods : Option Nat)
  | arrayType (len : Option Nat) (elt : Option Nat)
  | selectStmt (body : Option Nat)
  | compositeLit (type : Option Nat) (elts : List Nat)
  | parenExpr (x : Option Nat)
  | typeAssertExpr (x : Option Nat) (type : Option Nat)
  | badDecl
  | badExpr
  | funcLit (type : Option Nat) (body : Option Nat)
  | starExpr (x : Option Nat)
  | unaryExpr (x : Option Nat)
  | binaryExpr (x : Option Nat) (y : Option Nat)
  | keyValueExpr (key : Option Nat) (value : Option Nat)
  | badStmt
  | declStmt (decl : Option Nat)
  | emptyStmt
  | labeledStmt (label : Option Nat) (stmt : Option Nat)
  | sendStmt (chan : Option Nat) (value : Option Nat)
  | incDecStmt (x : Option Nat)
  | goStmt (call : Option Nat)
  | deferStmt (call : Option Nat)
  | caseClause (list : List Nat) (body : List Nat)
  | commentGroup (list : List Nat)
  | comment (text : String)
  | typeSwitchStmt (init : Option Nat) (assign : Option Nat)
      (body : Option Nat)
  | commClause (comm : Option Nat) (body : List Nat)
  | importSpec (doc : Option Nat) (name : Option Nat) (path : Option Nat)
      (com : Option Nat)
  | field (doc : Option Nat) (names : List Nat) (type : Option Nat)
      (tag : Option Nat) (com : Option Nat)
  | fieldList (list : List Nat)
  | mapType (key : Option Nat) (value : Option Nat)
  | chanType (value : Option Nat)
  | branchStmt (label : Option Nat)
  | switchStmt (init : Option Nat) (tag : Option Nat) (body : Option Nat)
  | unsupported (tyName : String)

/-- The node graph: identity → node content. -/
def Heap : Type := Nat → GoAst

/-- Dereference a mandatory `*ast.Ident` field and read its `Name` string
(the Go code's `n.Name.Name`). In a well-typed Go AST the target is always
an `*ast.Ident`; other contents are unreachable and give `""`. -/
def identName (h : Heap) (i : Nat) : String :=
  match h i with
  | .ident s => s
  | _ => ""

/-- `fmt.Sprintf("%T", node)` (line 36): the concrete type tag stored in
the `Type` field. -/
def typeName : GoAst → String
  | .ident _ => "*ast.Ident"
  | .basicLit _ => "*ast.BasicLit"
  | .file _ _ _ => "*ast.File"
  | .ellipsis _ => "*ast.Ellipsis"
  | .genDecl _ _ => "*ast.GenDecl"
  | .funcDecl _ _ _ _ _ => "*ast.FuncDecl"
  | .typeSpec _ _ _ _ _ => "*ast.TypeSpec"
  | .valueSpec _ _ _ _ _ => "*ast.ValueSpec"
  | .assignStmt _ _ => "*ast.AssignStmt"
  | .returnStmt _ => "*ast.ReturnStmt"
  | .ifStmt _ _ _ _ => "*ast.IfStmt"
  | .forStmt _ _ _ _ => "*ast.ForStmt"
  | .rangeStmt _ _ _ _ => "*ast.RangeStmt"
  | .blockStmt _ => "*ast.BlockStmt"
  | .exprStmt _ => "*ast.ExprStmt"
  | .callExpr _ _ => "*ast.CallExpr"
  | .selectorExpr _ _ => "*ast.SelectorExpr"
  | .indexListExpr _ _ => "*ast.IndexListExpr"
  | .indexExpr _ _ => "*ast.IndexExpr"
  | .sliceExpr _ _ _ _ => "*ast.SliceExpr"
  | .structType _ => "*ast.StructType"
  | .funcType _ _ _ => "*ast.FuncType"
  | .interfaceType _ => "*ast.InterfaceType"
  | .arrayType _ _ => "*ast.ArrayType"
  | .selectStmt _ => "*ast.SelectStmt"
  | .compositeLit _ _ => "*ast.CompositeLit"
  | .parenExpr _ => "*ast.ParenExpr"
  | .typeAssertExpr _ _ => "*ast.TypeAssertExpr"
  | .badDecl => "*ast.BadDecl"
  | .badExpr => "*ast.BadExpr"
  | .funcLit _ _ => "*ast.FuncLit"
  | .starExpr _ => "*ast.StarExpr"
  | .unaryExpr _ => "*ast.UnaryExpr"
  | .binaryExpr _ _ => "*ast.BinaryExpr"
  | .keyValueExpr _ _ => "*ast.KeyValueExpr"
  | .badStmt => "*ast.BadStmt"
  | .declStmt _ => "*ast.DeclStmt"
  | .emptyStmt => "*ast.EmptyStmt"
  | .labeledStmt _ _ => "*ast.LabeledStmt"
  | .sendStmt _ _ => "*ast.SendStmt"
  | .incDecStmt _ => "*ast.IncDecStmt"
  | .goStmt _ => "*ast.GoStmt"
  | .deferStmt _ => "*ast.DeferStmt"
  | .caseClause _ _ => "*ast.CaseClause"
  | .commentGroup _ => "*ast.CommentGroup"
  | .comment _ => "*ast.Comment"
  | .typeSwitchStmt _ _ _ => "*ast.TypeSwitchStmt"
  | .commClause _ _ => "*ast.CommClause"
  | .importSpec _ _ _ _ => "*ast.ImportSpec"
  | .field _ _ _ _ _ => "*ast.Field"
  | .fieldList _ => "*ast.FieldList"
  | .mapType _ _ => "*ast.MapType"
  | .chanType _ => "*ast.ChanType"
  | .branchStmt _ => "*ast.BranchStmt"
  | .switchStmt _ _ _ => "*ast.SwitchStmt"
  | .unsupported ty => ty

/-- The references the type switch of `marshalAST` recurses into for each
kind, in source order. A `none` entry is a nil field: the Go code either
guards it with an explicit nil check or lets `marshalAST`'s own nil check
return nil, and in both shapes a nil field contributes nothing. Kinds with
an empty list (`Ident`, `BasicLit`, `File`, `BadDecl`, `BadExpr`,
`BadStmt`, `EmptyStmt`, `Comment`) recurse into nothing in their `case`. -/
def switchRefs : GoAst → List (Option Nat)
  | .ident _ => []
  | .basicLit _ => []
  | .file _ _ _ => []
  | .ellipsis e => [e]
  | .genDecl _ specs => specs.map some
  | .funcDecl _ recv _ ty body => [recv, ty, body]
  | .typeSpec _ _ _ ty _ => [ty]
  | .valueSpec _ names ty values _ =>
      names.map some ++ [ty] ++ values.map some
  | .assignStmt lhs rhs => lhs.map some ++ rhs.map some
  | .returnStmt results => results.map some
  | .ifStmt i c b e => [i, c, b, e]
  | .forStmt i c p b => [i, c, p, b]
  | .rangeStmt k v x b => [k, v, x, b]
  | .blockStmt l => l.map some
  | .exprStmt x => [x]
  | .callExpr f args => [f] ++ args.map some
  | .selectorExpr x sel => [x, sel]
  | .indexListExpr x indices => [x] ++ indices.map some
  | .indexExpr x index => [x, index]
  | .sliceExpr x lo hi mx => [x, lo, hi, mx]
  | .structType fs => [fs]
  | .funcType _ params results => [params, results]
  | .interfaceType m => [m]
  | .arrayType _ elt => [elt]
  | .selectStmt b => [b]
  | .compositeLit ty elts => [ty] ++ elts.map some
  | .parenExpr x => [x]
  | .typeAssertExpr x ty => [x, ty]
  | .badDecl => []
  | .badExpr => []
  | .funcLit ty body => [ty, body]
  | .starExpr x => [x]
  | .unaryExpr x => [x]
  | .binaryExpr x y => [x, y]
  | .keyValueExpr k v => [k, v]
  | .badStmt => []
  | .declStmt d => [d]
  | .emptyStmt => []
  | .labeledStmt l s => [l, s]
  | .sendStmt c v => [c, v]
  | .incDecStmt x => [x]
  | .goStmt c => [c]
  | .deferStmt c => [c]
  | .caseClause l b => l.map some ++ b.map some
  | .commentGroup l => l.map some
  | .comment _ => []
  | .typeSwitchStmt i a b => [i, a, b]
  | .commClause c b => [c] ++ b.map some
  | .importSpec _ n p _ => [n, p]
  | .field _ names ty _ _ => names.map some ++ [ty]
  | .fieldList l => l.map some
  | .mapType k v => [k, v]
  | .chanType v => [v]
  | .branchStmt l => [l]
  | .switchStmt i t b => [i, t, b]
  | .unsupported _ => []

/-- The references `ast.Walk` (hence `ast.Inspect`, line 633) descends
into for each kind, in `go/ast/walk.go` order. This differs from
`switchRefs` where the switch skips struct fields that `Walk` visits:
`Doc`/`Comment` comment groups, `File.Name`, `FuncDecl.Name`,
`TypeSpec.Name`, `TypeSpec.TypeParams`, `FuncType.TypeParams`,
`Field.Tag`, `ArrayType.Len`, and all of `File`'s declarations. For
`unsupported`, `ast.Walk` panics before reaching children; the list is
unreachable (see `run`). -/
def walkRefs : GoAst → List (Option Nat)
  | .ident _ => []
  | .basicLit _ => []
  | .file doc name decls => [doc, some name] ++ decls.map some
  | .ellipsis e => [e]
  | .genDecl doc specs => [doc] ++ specs.map some
  | .funcDecl doc recv name ty body => [doc, recv, some name, ty, body]
  | .typeSpec doc name tps ty com => [doc, some name, tps, ty, com]
  | .valueSpec doc names ty values com =>
      [doc] ++ names.map some ++ [ty] ++ values.map some ++ [com]
  | .assignStmt lhs rhs => lhs.map some ++ rhs.map some
  | .returnStmt results => results.map some
  | .ifStmt i c b e => [i, c, b, e]
  | .forStmt i c p b => [i, c, p, b]
  | .rangeStmt k v x b => [k, v, x, b]
  | .blockStmt l => l.map some
  | .exprStmt x => [x]
  | .callExpr f args => [f] ++ args.map some
  | .selectorExpr x sel => [x, sel]
  | .indexListExpr x indices => [x] ++ indices.map some
  | .indexExpr x index => [x, index]
  | .sliceExpr x lo hi mx => [x, lo, hi, mx]
  | .structType fs => [fs]
  | .funcType tps params results => [tps, params, results]
  | .interfaceType m => [m]
  | .arrayType len elt => [len, elt]
  | .selectStmt b => [b]
  | .compositeLit ty elts => [ty] ++ elts.map some
  | .parenExpr x => [x]
  | .typeAssertExpr x ty => [x, ty]
  | .badDecl => []
  | .badExpr => []
  | .funcLit ty body => [ty, body]
  | .starExpr x => [x]
  | .unaryExpr x => [x]
  | .binaryExpr x y => [x, y]
  | .keyValueExpr k v => [k, v]
  | .badStmt => []
  | .declStmt d => [d]
  | .emptyStmt => []
  | .labeledStmt l s => [l, s]
  | .sendStmt c v => [c, v]
  | .incDecStmt x => [x]
  | .goStmt c => [c]
  | .deferStmt c => [c]
  | .caseClause l b => l.map some ++ b.map some
  | .commentGroup l => l.map some
  | .comment _ => []
  | .typeSwitchStmt i a b => [i, a, b]
  | .commClause c b => [c] ++ b.map some
  | .importSpec doc n p com => [doc, n, p, com]
  | .field doc names ty tag com =>
      [doc] ++ names.map some ++ [ty, tag, com]
  | .fieldList l => l.map some
  | .mapType k v => [k, v]
  | .chanType v => [v]
  | .branchStmt l => [l]
  | .switchStmt i t b => [i, t, b]
  | .unsupported _ => []

/-- The `Name` field assignments of the switch: `FuncDecl` and `TypeSpec`
set `astNode.Name = n.Name.Name`; every other kind leaves Go's zero value
`""`. -/
def nameOf (h : Heap) : GoAst → String
  | .funcDecl _ _ name _ _ => identName h name
  | .typeSpec _ name _ _ _ => identName h name
  | _ => ""

/-- The `Value` field assignments of the switch: `Ident` and `BasicLit`
store their own text, `File` stores `n.Name.Name` (the package name);
every other kind leaves the nil interface. -/
def valueOf (h : Heap) : GoAst → Option String
  | .ident s => some s
  | .basicLit s => some s
  | .file _ name _ => some (identName h name)
  | _ => none

/-- The `Comments` field: only the `*ast.Comment` case appends (`n.Text`). -/
def commentsOf : GoAst → List String
  | .comment t => [t]
  | _ => []

/-- Discriminator for the `default` branch of the type switch: `some ty`
when the node's type has no `case` (the program panics with `ty` in the
message), `none` for every declared kind. -/
def unsupportedName : GoAst → Option String
  | .unsupported ty => some ty
  | _ => none

/-- The mutually recursive shapes of `marshalAST` and its trailing
`ast.Inspect` sweep, run by the fuel-indexed interpreter `run`:

* `mar r` — a call `marshalAST(r, visited)` (`r = none` is a nil argument);
* `marList rs` — the switch body's sequence of `marshalAST` calls on the
  references `rs`, each non-nil result appended in order;
* `ins i` — `ast.Walk` of the inspection closure (lines 633–641) at node
  `i`: visit `i` itself, then walk `i`'s structural children;
* `insList rs` — the walk over a child-reference list, skipping nil
  references exactly where `ast.Walk`'s nil guards do. -/
inductive Task where
  | mar (r : Option Nat)
  | marList (rs : List (Option Nat))
  | ins (i : Nat)
  | insList (rs : List (Option Nat))

/-- Outcome of a `Task`. `ok emitted visited'`: the Go call returned
normally, handing `emitted` to the caller (for `mar`, `[]` is a nil
`*ASTNode` and a singleton a non-nil one; for the list/inspect tasks it is
the ordered list of nodes appended by the sequence) with the visited map
now `visited'`. `panicMsg` is a Go `panic` propagating up. `diverge` means
the computation did not complete within the given fuel. -/
inductive MOut where
  | ok (emitted : List ASTNode) (visited : List Nat)
  | panicMsg (msg : String)
  | diverge

/-- Fuel-indexed interpreter for `marshalAST` (lines 25–644). Every
recursive call of the Go code is a recursive `run` at one less fuel, so a
terminating Go execution is reproduced exactly by any sufficiently large
fuel, and a non-terminating one yields `diverge` at every fuel.

The `mar (some i)` case is the body of `marshalAST`: the visited check
(lines 31–33) before anything else, the insertion (line 34), the type
switch over `switchRefs` (lines 40–630, `default` panics), then the
`ast.Inspect` sweep (lines 632–641), the emitted node's children being
the switch's appends followed by the sweep's appends. -/
def run (h : Heap) : Nat → Task → List Nat → MOut
  | 0, _, _ => .diverge
  | _ + 1, .mar none, v => .ok [] v
  | fuel + 1, .mar (some i), v =>
    if i ∈ v then .ok [] v
    else
      match unsupportedName (h i) with
      | some ty => .panicMsg ("unsupported AST node type: " ++ ty)
      | none =>
        match run h fuel (.marList (switchRefs (h i))) (i :: v) with
        | .ok ks1 v2 =>
          match run h fuel (.ins i) v2 with
          | .ok ks2 v3 =>
            .ok [⟨nameOf h (h i), typeName (h i), ks1 ++ ks2,
                  valueOf h (h i), commentsOf (h i)⟩] v3
          | .panicMsg m => .panicMsg m
          | .diverge => .diverge
        | .panicMsg m => .panicMsg m
        | .diverge => .diverge
  | _ + 1, .marList [], v => .ok [] v
  | fuel + 1, .marList (r :: rs), v =>
    match run h fuel (.mar r) v with
    | .ok ks1 v1 =>
      match run h fuel (.marList rs) v1 with
      | .ok ks2 v2 => .ok (ks1 ++ ks2) v2
      | .panicMsg m => .panicMsg m
      | .diverge => .diverge
    | .panicMsg m => .panicMsg m
    | .diverge => .diverge
  | fuel + 1, .ins i, v =>
    match run h fuel (.mar (some i)) v with
    | .ok ks1 v1 =>
      match unsupportedName (h i) with
      | some ty => .panicMsg ("ast.Walk: unexpected node type " ++ ty)
      | none =>
        match run h fuel (.insList (walkRefs (h i))) v1 with
        | .ok ks2 v2 => .ok (ks1 ++ ks2) v2
        | .panicMsg m => .panicMsg m
        | .diverge => .diverge
    | .panicMsg m => .panicMsg m
    | .diverge => .diverge
  | _ + 1, .insList [], v => .ok [] v
  | fuel + 1, .insList (none :: rs), v => run h fuel (.insList rs) v
  | fuel + 1, .insList (some i :: rs), v =>
    match run h fuel (.ins i) v with
    | .ok ks1 v1 =>
      match run h fuel (.insList rs) v1 with
      | .ok ks2 v2 => .ok (ks1 ++ ks2) v2
      | .panicMsg m => .panicMsg m
      | .diverge => .diverge
    | .panicMsg m => .panicMsg m
    | .diverge => .diverge

/-- `marshalAST(node, visited)` at a given fuel. -/
def marshalAST (h : Heap) (fuel : Nat) (node : Option Nat)
    (visited : List Nat) : MOut :=
  run h fuel (.mar node) visited

/-- Hexadecimal digit, for `\u00XX` escapes. -/
def hexDigit (n : Nat) : Char :=
  if n < 10 then Char.ofNat (48 + n) else Char.ofNat (97 + (n - 10))

/-- Escape one character the way the encoder configured at line 671
(`ConfigCompatibleWithStandardLibrary`, matching `encoding/json`) does:
quote and backslash, `\n`/`\r`/`\t`, other control characters as
`\u00XX`, and the HTML characters as `<`, `>`, `&`. -/
def escChar (c : Char) : String :=
  if c = '"' then "\\\""
  else if c = '\\' then "\\\\"
  else if c = '\n' then "\\n"
  else if c = '\r' then "\\r"
  else if c = '\t' then "\\t"
  else if c = '<' then "\\u003c"
  else if c = '>' then "\\u003e"
  else if c = '&' then "\\u0026"
  else if c.toNat < 32 then
    "\\u00" ++ String.mk [hexDigit (c.toNat / 16), hexDigit (c.toNat % 16)]
  else String.singleton c

/-- A JSON string literal. -/
def jsonStr (s : String) : String :=
  "\"" ++ String.join (s.toList.map escChar) ++ "\""

/-- The key/value pairs the encoder emits for one `ASTNode`, given the
already-rendered `children` and `comments` arrays. Key order is the Go
struct's field order (`Name, Type, Children, Value, Comments`); the
`omitempty` tags drop `Name` when it is the zero string, `Value` when the
interface is nil, and the two slices when empty; `Type` has no
`omitempty` and is always emitted. -/
def renderFields (childrenR commentsR : String) (n : ASTNode) :
    List (String × String) :=
  (if n.name = "" then [] else [("name", jsonStr n.name)])
    ++ [("type", jsonStr n.type)]
    ++ (if n.children.isEmpty then [] else [("children", childrenR)])
    ++ (match n.value with | none => [] | some s => [("value", jsonStr s)])
    ++ (if n.comments.isEmpty then [] else [("comments", commentsR)])

/-- Render one node as the indented JSON object of
`Encoder.SetIndent("", "  ")`: the opening brace sits inline, member
lines are indented two spaces past `ind`, and the closing brace sits at
`ind`. -/
def renderNode : String → ASTNode → String
  | ind, ⟨nm, ty, cs, vl, cm⟩ =>
    let childrenR := "[\n" ++ String.intercalate ",\n"
        (cs.attach.map (fun c => ind ++ "    " ++ renderNode (ind ++ "    ") c.1))
      ++ "\n" ++ ind ++ "  ]"
    let commentsR := "[\n" ++ String.intercalate ",\n"
        (cm.map (fun s => ind ++ "    " ++ jsonStr s)) ++ "\n" ++ ind ++ "  ]"
    "\x7b\n" ++ String.intercalate ",\n"
        ((renderFields childrenR commentsR ⟨nm, ty, cs, vl, cm⟩).map
          (fun kv => ind ++ "  " ++ jsonStr kv.1 ++ ": " ++ kv.2))
      ++ "\n" ++ ind ++ "\x7d"
termination_by _ n => sizeOf n
decreasing_by
  simp_wf
  have h1 := List.sizeOf_lt_of_mem c.2
  omega

/-- `jsonEncoder.Encode(astNode)` (line 677): the rendered value plus the
encoder's trailing newline; a nil `*ASTNode` encodes as `null`. -/
def renderDoc : Option ASTNode → String
  | none => "null\n"
  | some n => renderNode "" n ++ "\n"

/-- `filepath.Base` for the clean relative paths this model uses. -/
def baseOf (p : String) : String :=
  String.mk ((p.toList.reverse.takeWhile (fun c => c ≠ '/')).reverse)

/-- `filepath.Dir` for clean relative paths: everything before the final
separator, or `"."` when there is none. -/
def dirOf (p : String) : String :=
  if p.toList.contains '/' then
    String.mk (((p.toList.reverse.dropWhile (fun c => c ≠ '/')).drop 1).reverse)
  else "."

/-- `strings.TrimSuffix(base, filepath.Ext(base))` (lines 658–659): the
base name with the suffix from its final dot removed; unchanged when it
has no dot (`filepath.Ext` is then `""`). -/
def stemOf (base : String) : String :=
  if base.toList.contains '.' then
    String.mk (((base.toList.reverse.dropWhile (fun c => c ≠ '.')).drop 1).reverse)
  else base

/-- `filepath.Join` for a clean directory and base. -/
def joinPath (d b : String) : String :=
  if d = "." then b else d ++ "/" ++ b

/-- The output path computation of `processFile` (lines 656–661):
`<dir>/<base without extension>.json`. -/
def jsonPathOf (p : String) : String :=
  joinPath (dirOf p) (stemOf (baseOf p) ++ ".json")

/-- `strings.HasSuffix`. -/
def hasSuffix (s suffix : String) : Bool :=
  suffix.toList.isSuffixOf s.toList

/-- Filesystem effects of the pipeline: `create p` is `os.Create(p)`
(which creates the file, truncating any existing one, before anything is
serialized — line 664), `writeDoc p c` is the encoder writing document
content `c` to the file at `p`. -/
inductive FileEffect where
  | create (path : String)
  | writeDoc (path : String) (content : String)

/-- Outcome of `processFile`: a normal error return (`errorOut`), a
normal success, a propagating Go panic, or fuel exhaustion of the
marshalling step. Each carries the filesystem effects that happened
before the outcome. -/
inductive ProcOut where
  | success (effects : List FileEffect)
  | errorOut (effects : List FileEffect) (msg : String)
  | panicked (effects : List FileEffect) (msg : String)
  | fuelOut

/-- `processFile` (lines 647–684). The external parser is modelled by the
`parseResult` argument (`parser.ParseFile` either fails, giving the
wrapped parse error of line 652, or yields the node graph and the root
`*ast.File` identity). `os.Create` and the encoder's write are assumed to
succeed at the I/O level, as they are external; `os.Create` happens
before `marshalAST` runs, so its effect is present even when the
marshalling panics. -/
def processFile (fuel : Nat) (srcPath : String)
    (parseResult : Except String (Heap × Nat)) : ProcOut :=
  match parseResult with
  | .error e =>
    .errorOut [] ("error parsing Go source file " ++ srcPath ++ ": " ++ e)
  | .ok (h, root) =>
    let out := jsonPathOf srcPath
    match run h fuel (.mar (some root)) [] with
    | .ok ks _ => .success [.create out, .writeDoc out (renderDoc ks.head?)]
    | .panicMsg m => .panicked [.create out] m
    | .diverge => .fuelOut

/-- Paths of files created (and possibly truncated) by `os.Create`. -/
def createdPaths : List FileEffect → List String
  | [] => []
  | .create p :: es => p :: createdPaths es
  | .writeDoc _ _ :: es => createdPaths es

/-- Paths that had document content written to them. -/
def writtenPaths : List FileEffect → List String
  | [] => []
  | .create _ :: es => writtenPaths es
  | .writeDoc p _ :: es => p :: writtenPaths es

/-- One entry of the `filepath.Walk` traversal (the walker itself is
external): its path, whether it is a directory, and — for files handed to
`processFile` — the external parse result for it. -/
structure WalkEntry where
  path : String
  isDir : Bool
  parse : Except String (Heap × Nat)

/-- Outcome of `processFolder`: like `ProcOut`, plus the list of paths
for which `processFile` was actually invoked, in walk order. -/
inductive FolderOut where
  | success (attempted : List String) (effects : List FileEffect)
  | errorOut (attempted : List String) (effects : List FileEffect)
      (msg : String)
  | panicked (attempted : List String) (effects : List FileEffect)
      (msg : String)
  | fuelOut

/-- The walk callback loop (lines 688–696): directories and files without
the `.go` suffix return nil and the walk continues; a `.go` file runs
`processFile`, and a non-nil error return makes `filepath.Walk` abort the
remainder of the traversal. A panic propagates out of the walk at once. -/
def walkFold (fuel : Nat) :
    List WalkEntry → List String → List FileEffect → FolderOut
  | [], att, effs => .success att effs
  | e :: es, att, effs =>
    if e.isDir then walkFold fuel es att effs
    else if hasSuffix (baseOf e.path) ".go" then
      match processFile fuel e.path e.parse with
      | .success fe => walkFold fuel es (att ++ [e.path]) (effs ++ fe)
      | .errorOut fe m => .errorOut (att ++ [e.path]) (effs ++ fe) m
      | .panicked fe m => .panicked (att ++ [e.path]) (effs ++ fe) m
      | .fuelOut => .fuelOut
    else walkFold fuel es att effs

/-- `processFolder` (lines 687–701): run the walk; a non-nil error from
it is wrapped with the folder path (line 698). -/
def processFolder (fuel : Nat) (folderPath : String)
    (entries : List WalkEntry) : FolderOut :=
  match walkFold fuel entries [] [] with
  | .errorOut att effs m =>
    .errorOut att effs ("error processing folder " ++ folderPath ++ ": " ++ m)
  | x => x

/-- The emitted forest of an `ok` outcome (empty for panic or fuel-out). -/
def okNodes : MOut → List ASTNode
  | .ok ks _ => ks
  | _ => []

/-- One full serialization run: marshal the root with the given visited
set and render the resulting document, `none` when the run does not
complete normally. -/
def renderRun (h : Heap) (fuel : Nat) (root : Nat) (v : List Nat) :
    Option String :=
  match run h fuel (.mar (some root)) v with
  | .ok ks _ => some (renderDoc ks.head?)
  | _ => none

/-- The paths of the walk entries that the callback hands to
`processFile` (non-directories whose base name ends in `.go`), in walk
order. -/
def goPaths : List WalkEntry → List String
  | [] => []
  | e :: es =>
    if e.isDir then goPaths es
    else if hasSuffix (baseOf e.path) ".go" then e.path :: goPaths es
    else goPaths es

/-- A walk entry that does not abort the walk: a directory, a non-`.go`
file, or a `.go` file whose `processFile` returns normally. -/
def unitOK (fuel : Nat) (e : WalkEntry) : Prop :=
  e.isDir = true ∨ hasSuffix (baseOf e.path) ".go" = false ∨
    ∃ fe, processFile fuel e.path e.parse = .success fe

/-- A one-node graph: a `BadExpr` leaf. -/
def hBad : Heap := fun _ => .badExpr

/-- A cyclic graph: identity `0` is a parenthesized expression whose
operand is itself (`n.X == n`), the smallest graph with a cycle. -/
def hCyc : Heap := fun _ => .parenExpr (some 0)

/-- `type T int`: a `TypeSpec` (id 0) with `Name` the ident `T` (id 1)
and `Type` the ident `int` (id 2). -/
def hTS : Heap := fun i =>
  match i with
  | 0 => .typeSpec none 1 none (some 2) none
  | 1 => .ident "T"
  | _ => .ident "int"

/-- `func (r T) f() { return }`: a `FuncDecl` (id 0) with receiver field
list (ids 1–4), name ident `f` (id 5), signature (ids 6–7), and a body
block (id 9) holding one return statement (id 10). -/
def hC4 : Heap := fun i =>
  match i with
  | 0 => .funcDecl none (some 1) 5 (some 6) (some 9)
  | 1 => .fieldList [2]
  | 2 => .field none [3] (some 4) none none
  | 3 => .ident "r"
  | 4 => .ident "T"
  | 5 => .ident "f"
  | 6 => .funcType none (some 7) none
  | 7 => .fieldList []
  | 9 => .blockStmt [10]
  | _ => .returnStmt []

/-- A source unit: a `File` (id 0) with package-name ident `main` (id 1)
and one empty declaration group (id 2). -/
def hFile : Heap := fun i =>
  match i with
  | 0 => .file none 1 [2]
  | 1 => .ident "main"
  | _ => .genDecl none []

/-- A graph whose root is a node kind outside the declared schema. -/
def hU : Heap := fun _ => .unsupported "*ast.Package"

/-- A source unit rooted at a supported `*ast.File` (as every unit
returned by `parser.ParseFile` is) whose declaration list contains a
node of a kind outside the declared schema, so the unsupported kind is
reached below the root, during the recursive descent. -/
def hUNest : Heap := fun i =>
  match i with
  | 0 => .file none 1 [2]
  | 1 => .ident "main"
  | _ => .unsupported "*ast.Package"

/-- Walk entry: a `.go` file that parses to the one-node graph `hBad`. -/
def entA : WalkEntry := ⟨"a.go", false, .ok (hBad, 0)⟩

/-- Walk entry: a `.go` file whose parse fails. -/
def entB : WalkEntry := ⟨"b.go", false, .error "expected declaration"⟩

/-- Walk entry: a `.go` file after the failing one. -/
def entC : WalkEntry := ⟨"c.go", false, .ok (hBad, 0)⟩

/-- `v'` extends `v` by the freshly claimed identities `w`: each is new,
none is claimed twice. -/
def Ext (v v' w : List Nat) : Prop :=
  v' = w ++ v ∧ w.Nodup ∧ ∀ x ∈ w, x ∉ v

theorem Ext.nil (v : List Nat) : Ext v v [] := by
  refine ⟨rfl, List.nodup_nil, ?_⟩
  intro x hx
  cases hx

theorem Ext.compose {v v2 v3 w1 w2 : List Nat} (h1 : Ext v v2 w1)
    (h2 : Ext v2 v3 w2) : Ext v v3 (w2 ++ w1) := by
  obtain ⟨e1, n1, f1⟩ := h1
  obtain ⟨e2, n2, f2⟩ := h2
  subst e1
  refine ⟨by simp [e2], ?_, ?_⟩
  · rw [List.nodup_append]
    refine ⟨n2, n1, ?_⟩
    intro x hx2 hx1
    exact (f2 x hx2) (by simp [hx1])
  · intro x hx
    rcases List.mem_append.1 hx with hx2 | hx1
    · intro hv
      exact (f2 x hx2) (by simp [hv])
    · exact f1 x hx1

theorem Ext.claim {v v3 w : List Nat} {i : Nat} (hi : i ∉ v)
    (h : Ext (i :: v) v3 w) : Ext v v3 (w ++ [i]) := by
  obtain ⟨e, n, f⟩ := h
  refine ⟨by simp [e], ?_, ?_⟩
  · rw [List.nodup_append]
    refine ⟨n, List.nodup_singleton i, ?_⟩
    intro x hx hxi
    rcases List.mem_singleton.1 hxi with rfl
    exact (f x hx) (List.mem_cons_self x v)
  · intro x hx
    rcases List.mem_append.1 hx with hw | hxi
    · intro hv
      exact (f x hw) (List.mem_cons_of_mem i hv)
    · rcases List.mem_singleton.1 hxi with rfl
      exact hi

theorem allNodesL_append (a b : List ASTNode) :
    allNodesL (a ++ b) = allNodesL a ++ allNodesL b := by
  induction a with
  | nil => simp [allNodesL]
  | cons n ns ih =>
    obtain ⟨nm, ty, cs, vl, cm⟩ := n
    simp [allNodesL, ih]

/-- Visited-set and emission-count invariant of `marshalAST`: a normally
returning call extends the visited set by a duplicate-free list of fresh
identities, and emits exactly one `GenericNode` per identity it claims
(counting all nodes of the returned trees). -/
theorem run_ok_inv (h : Heap) : ∀ fuel t v ks v',
    run h fuel t v = .ok ks v' →
    ∃ w, Ext v v' w ∧ (allNodesL ks).length = w.length := by
  intro fuel
  induction fuel with
  | zero =>
    intro t v ks v' he
    simp [run] at he
  | succ fuel ih =>
    intro t v ks v' he
    match t with
    | .mar none =>
      simp only [run] at he
      cases he
      exact ⟨[], Ext.nil v, by simp [allNodesL]⟩
    | .mar (some i) =>
      simp only [run] at he
      split at he
      · cases he
        rename_i hi
        exact ⟨[], Ext.nil v, by simp [allNodesL]⟩
      · rename_i hi
        split at he
        · cases he
        · rename_i hu
          split at he
          · rename_i ks1 v2 h1
            split at he
            · rename_i ks2 v3 h2
              cases he
              obtain ⟨w1, hw1, hc1⟩ := ih _ _ _ _ h1
              obtain ⟨w2, hw2, hc2⟩ := ih _ _ _ _ h2
              refine ⟨(w2 ++ w1) ++ [i], Ext.claim hi (hw1.compose hw2), ?_⟩
              simp [allNodesL, allNodesL_append, hc1, hc2]
              omega
            · cases he
            · cases he
          · cases he
          · cases he
    | .marList [] =>
      simp only [run] at he
      cases he
      exact ⟨[], Ext.nil v, by simp [allNodesL]⟩
    | .marList (r :: rs) =>
      simp only [run] at he
      split at he
      · rename_i ks1 v1 h1
        split at he
        · rename_i ks2 v2 h2
          cases he
          obtain ⟨w1, hw1, hc1⟩ := ih _ _ _ _ h1
          obtain ⟨w2, hw2, hc2⟩ := ih _ _ _ _ h2
          refine ⟨w2 ++ w1, hw1.compose hw2, ?_⟩
          simp [allNodesL_append, hc1, hc2]
          omega
        · cases he
        · cases he
      · cases he
      · cases he
    | .ins i =>
      simp only [run] at he
      split at he
      · rename_i ks1 v1 h1
        split at he
        · cases he
        · rename_i hu
          split at he
          · rename_i ks2 v2 h2
            cases he
            obtain ⟨w1, hw1, hc1⟩ := ih _ _ _ _ h1
            obtain ⟨w2, hw2, hc2⟩ := ih _ _ _ _ h2
            refine ⟨w2 ++ w1, hw1.compose hw2, ?_⟩
            simp [allNodesL_append, hc1, hc2]
            omega
          · cases he
          · cases he
      · cases he
      · cases he
    | .insList [] =>
      simp only [run] at he
      cases he
      exact ⟨[], Ext.nil v, by simp [allNodesL]⟩
    | .insList (none :: rs) =>
      simp only [run] at he
      exact ih _ _ _ _ he
    | .insList (some i :: rs) =>
      simp only [run] at he
      split at he
      · rename_i ks1 v1 h1
        split at he
        · rename_i ks2 v2 h2
          cases he
          obtain ⟨w1, hw1, hc1⟩ := ih _ _ _ _ h1
          obtain ⟨w2, hw2, hc2⟩ := ih _ _ _ _ h2
          refine ⟨w2 ++ w1, hw1.compose hw2, ?_⟩
          simp [allNodesL_append, hc1, hc2]
          omega
        · cases he
        · cases he
      · cases he
      · cases he

/-- Shape invariant: every node of a normally returned forest was built
at line 36 plus the switch's field assignments for some supported node
content `g`: its `type` is `typeName g` and its `name`/`value`/`comments`
are exactly the switch's assignments for `g`. -/
theorem run_shape (h : Heap) : ∀ fuel t v ks v',
    run h fuel t v = .ok ks v' →
    ∀ n ∈ allNodesL ks, ∃ g, unsupportedName g = none ∧
      n.name = nameOf h g ∧ n.type = typeName g ∧
      n.value = valueOf h g ∧ n.comments = commentsOf g := by
  intro fuel
  induction fuel with
  | zero =>
    intro t v ks v' he
    simp [run] at he
  | succ fuel ih =>
    intro t v ks v' he
    match t with
    | .mar none =>
      simp only [run] at he
      cases he
      intro n hn
      simp [allNodesL] at hn
    | .mar (some i) =>
      simp only [run] at he
      split at he
      · cases he
        intro n hn
        simp [allNodesL] at hn
      · rename_i hi
        split at he
        · cases he
        · rename_i hu
          split at he
          · rename_i ks1 v2 h1
            split at he
            · rename_i ks2 v3 h2
              cases he
              intro n hn
              simp only [allNodesL, allNodesL_append, List.mem_cons,
                List.mem_append, List.not_mem_nil, or_false] at hn
              rcases hn with rfl | hn1 | hn2
              · exact ⟨h i, hu, rfl, rfl, rfl, rfl⟩
              · exact ih _ _ _ _ h1 n hn1
              · exact ih _ _ _ _ h2 n hn2
            · cases he
            · cases he
          · cases he
          · cases he
    | .marList [] =>
      simp only [run] at he
      cases he
      intro n hn
      simp [allNodesL] at hn
    | .marList (r :: rs) =>
      simp only [run] at he
      split at he
      · rename_i ks1 v1 h1
        split at he
        · rename_i ks2 v2 h2
          cases he
          intro n hn
          rcases List.mem_append.1 ((allNodesL_append ks1 ks2) ▸ hn) with hn1 | hn2
          · exact ih _ _ _ _ h1 n hn1
          · exact ih _ _ _ _ h2 n hn2
        · cases he
        · cases he
      · cases he
      · cases he
    | .ins i =>
      simp only [run] at he
      split at he
      · rename_i ks1 v1 h1
        split at he
        · cases he
        · rename_i hu
          split at he
          · rename_i ks2 v2 h2
            cases he
            intro n hn
            rcases List.mem_append.1 ((allNodesL_append ks1 ks2) ▸ hn) with hn1 | hn2
            · exact ih _ _ _ _ h1 n hn1
            · exact ih _ _ _ _ h2 n hn2
          · cases he
          · cases he
      · cases he
      · cases he
    | .insList [] =>
      simp only [run] at he
      cases he
      intro n hn
      simp [allNodesL] at hn
    | .insList (none :: rs) =>
      simp only [run] at he
      exact ih _ _ _ _ he
    | .insList (some i :: rs) =>
      simp only [run] at he
      split at he
      · rename_i ks1 v1 h1
        split at he
        · rename_i ks2 v2 h2
          cases he
          intro n hn
          rcases List.mem_append.1 ((allNodesL_append ks1 ks2) ▸ hn) with hn1 | hn2
          · exact ih _ _ _ _ h1 n hn1
          · exact ih _ _ _ _ h2 n hn2
        · cases he
        · cases he
      · cases he
      · cases he

/-- A normally returning `marshalAST` call on a non-nil node was either
a repeat encounter or saw a supported kind: an unvisited unsupported node
panics before returning. -/
theorem mar_ok_root (h : Heap) (fuel : Nat) (i : Nat) (v : List Nat)
    (ks : List ASTNode) (v' : List Nat)
    (he : run h fuel (.mar (some i)) v = .ok ks v') :
    i ∈ v ∨ unsupportedName (h i) = none := by
  match fuel with
  | 0 => simp [run] at he
  | fuel + 1 =>
    simp only [run] at he
    split at he
    · rename_i hi
      exact Or.inl hi
    · rename_i hi
      split at he
      · cases he
      · rename_i hu
        exact Or.inr hu

/-- Every identity a normally returning call adds to the visited set
holds a supported kind: line 34's marking of an unsupported node is
immediately followed by the `default` panic, so it never survives into a
normal return. -/
theorem run_visited_supported (h : Heap) : ∀ fuel t v ks v',
    run h fuel t v = .ok ks v' →
    ∀ x ∈ v', x ∈ v ∨ unsupportedName (h x) = none := by
  intro fuel
  induction fuel with
  | zero =>
    intro t v ks v' he
    simp [run] at he
  | succ fuel ih =>
    intro t v ks v' he
    match t with
    | .mar none =>
      simp only [run] at he
      cases he
      intro x hx
      exact Or.inl hx
    | .mar (some i) =>
      simp only [run] at he
      split at he
      · cases he
        intro x hx
        exact Or.inl hx
      · rename_i hi
        split at he
        · cases he
        · rename_i hu
          split at he
          · rename_i ks1 v2 h1
            split at he
            · rename_i ks2 v3 h2
              cases he
              intro x hx
              rcases ih _ _ _ _ h2 x hx with hx2 | hs
              · rcases ih _ _ _ _ h1 x hx2 with hx1 | hs
                · rcases List.mem_cons.1 hx1 with rfl | hxv
                  · exact Or.inr hu
                  · exact Or.inl hxv
                · exact Or.inr hs
              · exact Or.inr hs
            · cases he
            · cases he
          · cases he
          · cases he
    | .marList [] =>
      simp only [run] at he
      cases he
      intro x hx
      exact Or.inl hx
    | .marList (r :: rs) =>
      simp only [run] at he
      split at he
      · rename_i ks1 v1 h1
        split at he
        · rename_i ks2 v2 h2
          cases he
          intro x hx
          rcases ih _ _ _ _ h2 x hx with hx1 | hs
          · exact ih _ _ _ _ h1 x hx1
          · exact Or.inr hs
        · cases he
        · cases he
      · cases he
      · cases he
    | .ins i =>
      simp only [run] at he
      split at he
      · rename_i ks1 v1 h1
        split at he
        · cases he
        · rename_i hu
          split at he
          · rename_i ks2 v2 h2
            cases he
            intro x hx
            rcases ih _ _ _ _ h2 x hx with hx1 | hs
            · exact ih _ _ _ _ h1 x hx1
            · exact Or.inr hs
          · cases he
          · cases he
      · cases he
      · cases he
    | .insList [] =>
      simp only [run] at he
      cases he
      intro x hx
      exact Or.inl hx
    | .insList (none :: rs) =>
      simp only [run] at he
      exact ih _ _ _ _ he
    | .insList (some i :: rs) =>
      simp only [run] at he
      split at he
      · rename_i ks1 v1 h1
        split at he
        · rename_i ks2 v2 h2
          cases he
          intro x hx
          rcases ih _ _ _ _ h2 x hx with hx1 | hs
          · exact ih _ _ _ _ h1 x hx1
          · exact Or.inr hs
        · cases he
        · cases he
      · cases he
      · cases he

/-- Every panic of a run started with a visited set of supported
identities is the type switch's `default` panic, carrying the
`unsupported AST node type` message — wherever in the descent the
unsupported kind is reached. (`ast.Walk`'s own panic is unreachable: a
visited node was marshalled, so its kind is supported.) -/
theorem run_panic_unsupported (h : Heap) : ∀ fuel t v m,
    (∀ x ∈ v, unsupportedName (h x) = none) →
    run h fuel t v = .panicMsg m →
    ∃ ty, m = "unsupported AST node type: " ++ ty := by
  intro fuel
  induction fuel with
  | zero =>
    intro t v m _ he
    simp [run] at he
  | succ fuel ih =>
    intro t v m hv he
    match t with
    | .mar none =>
      simp only [run] at he
      cases he
    | .mar (some i) =>
      simp only [run] at he
      split at he
      · cases he
      · rename_i hi
        split at he
        · rename_i ty hu
          cases he
          exact ⟨ty, rfl⟩
        · rename_i hu
          have hv2 : ∀ x ∈ i :: v, unsupportedName (h x) = none := by
            intro x hx
            rcases List.mem_cons.1 hx with rfl | hxv
            · exact hu
            · exact hv x hxv
          split at he
          · rename_i ks1 v2 h1
            have hv3 : ∀ x ∈ v2, unsupportedName (h x) = none := by
              intro x hx
              rcases run_visited_supported h fuel _ _ _ _ h1 x hx with hx1 | hs
              · exact hv2 x hx1
              · exact hs
            split at he
            · cases he
            · rename_i m2 h2
              cases he
              exact ih _ _ _ hv3 h2
            · cases he
          · rename_i m1 h1
            cases he
            exact ih _ _ _ hv2 h1
          · cases he
    | .marList [] =>
      simp only [run] at he
      cases he
    | .marList (r :: rs) =>
      simp only [run] at he
      split at he
      · rename_i ks1 v1 h1
        have hv1 : ∀ x ∈ v1, unsupportedName (h x) = none := by
          intro x hx
          rcases run_visited_supported h fuel _ _ _ _ h1 x hx with hx0 | hs
          · exact hv x hx0
          · exact hs
        split at he
        · cases he
        · rename_i m2 h2
          cases he
          exact ih _ _ _ hv1 h2
        · cases he
      · rename_i m1 h1
        cases he
        exact ih _ _ _ hv h1
      · cases he
    | .ins i =>
      simp only [run] at he
      split at he
      · rename_i ks1 v1 h1
        split at he
        · rename_i ty hu
          rcases mar_ok_root h fuel i v ks1 v1 h1 with hin | hsup
          · rw [hv i hin] at hu
            cases hu
          · rw [hsup] at hu
            cases hu
        · rename_i hu
          have hv1 : ∀ x ∈ v1, unsupportedName (h x) = none := by
            intro x hx
            rcases run_visited_supported h fuel _ _ _ _ h1 x hx with hx0 | hs
            · exact hv x hx0
            · exact hs
          split at he
          · cases he
          · rename_i m2 h2
            cases he
            exact ih _ _ _ hv1 h2
          · cases he
      · rename_i m1 h1
        cases he
        exact ih _ _ _ hv h1
      · cases he
    | .insList [] =>
      simp only [run] at he
      cases he
    | .insList (none :: rs) =>
      simp only [run] at he
      exact ih _ _ _ hv he
    | .insList (some i :: rs) =>
      simp only [run] at he
      split at he
      · rename_i ks1 v1 h1
        have hv1 : ∀ x ∈ v1, unsupportedName (h x) = none := by
          intro x hx
          rcases run_visited_supported h fuel _ _ _ _ h1 x hx with hx0 | hs
          · exact hv x hx0
          · exact hs
        split at he
        · cases he
        · rename_i m2 h2
          cases he
          exact ih _ _ _ hv1 h2
        · cases he
      · rename_i m1 h1
        cases he
        exact ih _ _ _ hv h1
      · cases he

/-- The type tag of every supported kind is a nonempty string (the `%T`
rendering of a concrete pointer type). -/
theorem typeName_ne_empty (g : GoAst) (hg : unsupportedName g = none) :
    typeName g ≠ "" := by
  cases g <;> simp_all [unsupportedName, typeName]

/-- For every supported kind, the switch assigns a `Value` exactly when the
kind is `Ident`, `BasicLit` or `File`. -/
theorem valueOf_isSome_iff (h : Heap) (g : GoAst)
    (hg : unsupportedName g = none) :
    ((valueOf h g).isSome = true ↔
      (typeName g = "*ast.Ident" ∨ typeName g = "*ast.BasicLit" ∨
        typeName g = "*ast.File")) := by
  cases g <;> simp_all [unsupportedName, typeName, valueOf]

/-- The JSON keys the encoder emits for a node: `type` always, each
optional key exactly when its field is nonempty. -/
theorem renderFields_keys (cr co : String) (n : ASTNode) :
    ("type" ∈ (renderFields cr co n).map Prod.fst) ∧
    ("name" ∈ (renderFields cr co n).map Prod.fst ↔ n.name ≠ "") ∧
    ("children" ∈ (renderFields cr co n).map Prod.fst ↔ n.children ≠ []) ∧
    ("value" ∈ (renderFields cr co n).map Prod.fst ↔ n.value ≠ none) ∧
    ("comments" ∈ (renderFields cr co n).map Prod.fst ↔ n.comments ≠ []) := by
  obtain ⟨nm, ty, cs, vl, cm⟩ := n
  cases vl <;> simp [renderFields]

/-- On the cyclic graph `hCyc`, the `ast.Inspect` sweep at the already
visited identity `0` walks `X` (which is node `0` again) without any fuel
bound sufficing: the sweep consults the visited map only to decide
whether to emit, not whether to descend. -/
theorem insCyc : ∀ fuel v, 0 ∈ v → run hCyc fuel (.ins 0) v = .diverge := by
  intro fuel
  induction fuel using Nat.strong_induction_on with
  | _ fuel ih =>
    intro v hv
    match fuel with
    | 0 => simp [run]
    | 1 => simp [run]
    | (f + 2) =>
      have hrec := ih f (by omega) v hv
      simp [run, hv, hCyc, unsupportedName, walkRefs, hrec]

/-- C1: in one serialization run each syntax-node identity yields at most
one GenericNode. (i) A later encounter of an identity already in the
visited set returns nil and leaves the set unchanged, contributing no
node. (ii) A completing first encounter emits exactly one node and
records the identity. (iii) Any completing call emits exactly one node
(counting every node of the returned trees) per identity it freshly
claims, and claims no identity twice, so no identity accounts for two
nodes of the output. -/
theorem C1_single_emission (h : Heap) (fuel : Nat) (i : Nat) (v : List Nat)
    (ks : List ASTNode) (v' : List Nat) :
    (i ∈ v → marshalAST h (fuel + 1) (some i) v = .ok [] v) ∧
    (marshalAST h fuel (some i) v = .ok ks v' → i ∉ v →
      ks.length = 1 ∧ i ∈ v') ∧
    (marshalAST h fuel (some i) v = .ok ks v' →
      ∃ w, v' = w ++ v ∧ w.Nodup ∧ (∀ x ∈ w, x ∉ v) ∧
        (allNodesL ks).length = w.length) := by
  refine ⟨?_, ?_, ?_⟩
  · intro hi
    simp [marshalAST, run, hi]
  · intro he hi
    match fuel with
    | 0 => simp [marshalAST, run] at he
    | fuel + 1 =>
      simp only [marshalAST, run] at he
      rw [if_neg hi] at he
      split at he
      · cases he
      · rename_i hu
        split at he
        · rename_i ks1 v2 h1
          split at he
          · rename_i ks2 v3 h2
            cases he
            refine ⟨rfl, ?_⟩
            obtain ⟨w1, ⟨e1, _, _⟩, _⟩ := run_ok_inv h fuel _ _ _ _ h1
            obtain ⟨w2, ⟨e2, _, _⟩, _⟩ := run_ok_inv h fuel _ _ _ _ h2
            simp [e2, e1]
          · cases he
          · cases he
        · cases he
        · cases he
  · intro he
    obtain ⟨w, ⟨e, nd, fr⟩, hc⟩ := run_ok_inv h fuel _ _ _ _ he
    exact ⟨w, e, nd, fr, hc⟩

/-- Witness for C1 on the one-node graph `hBad`: a repeat encounter
returns nil, a first encounter emits one node claiming identity 0, and
the count of emitted nodes equals the count of claimed identities. -/
theorem C1_witness :
    marshalAST hBad 3 (some 0) [0] = .ok [] [0] ∧
    (([⟨"", "*ast.BadExpr", [], none, []⟩] : List ASTNode).length = 1 ∧
      0 ∈ [0]) ∧
    (∃ w, ([0] : List Nat) = w ++ [] ∧ w.Nodup ∧
      (∀ x ∈ w, x ∉ ([] : List Nat)) ∧
      (allNodesL [⟨"", "*ast.BadExpr", [], none, []⟩]).length = w.length) := by
  refine ⟨(C1_single_emission hBad 2 0 [0] [] [0]).1 (by decide), ?_, ?_⟩
  · exact (C1_single_emission hBad 3 0 []
      [⟨"", "*ast.BadExpr", [], none, []⟩] [0]).2.1 rfl (by decide)
  · exact (C1_single_emission hBad 3 0 []
      [⟨"", "*ast.BadExpr", [], none, []⟩] [0]).2.2 rfl

/-- C2 (refuted on the code): on the cyclic graph `hCyc` — one identity,
a parenthesized expression that is its own operand — `marshalAST` does
not terminate at any fuel: the trailing `ast.Inspect` re-descent walks
the structure without consulting the visited set before descending, so a
cycle recurses forever, although the switch's own recursion is guarded. -/
theorem C2_cycle_diverges : ∀ fuel, marshalAST hCyc fuel (some 0) [] = .diverge := by
  intro fuel
  match fuel with
  | 0 => rfl
  | 1 => rfl
  | 2 => rfl
  | (f + 3) =>
    have hins := insCyc f [0] (by simp)
    simp [marshalAST, run, hCyc, unsupportedName, switchRefs, hins]

/-- C3 (refuted on the code): for the shared-reference-free tree `hTS`
(`type T int`), the `TypeSpec` case's declared substructure is the single
`Type` reference, yet the emitted node has two children — the type ident
and, appended by the unconditional `ast.Inspect` re-descent, the `Name`
ident `T` that the switch had only read as a string. -/
theorem C3_typespec_children :
    ((okNodes (marshalAST hTS 20 (some 0) [])).map
        (fun n => n.children.map (fun c => (c.type, c.value))) =
      [[("*ast.Ident", some "int"), ("*ast.Ident", some "T")]]) ∧
    switchRefs (hTS 0) = [some 2] ∧
    ((okNodes (marshalAST hTS 20 (some 0) [])).map
        (fun n => n.children.length) = [2]) :=
  ⟨rfl, rfl, rfl⟩

/-- C4 (refuted on the code): for the function declaration `hC4` with a
receiver, a signature and a one-return body, the emitted node has `name`
`"f"` but four children, not three: receiver, signature, body, and then
the function-name identifier re-appended by the `ast.Inspect` sweep. -/
theorem C4_funcdecl_children :
    ((okNodes (marshalAST hC4 40 (some 0) [])).map ASTNode.name = ["f"]) ∧
    ((okNodes (marshalAST hC4 40 (some 0) [])).map
        (fun n => n.children.map ASTNode.type) =
      [["*ast.FieldList", "*ast.FuncType", "*ast.BlockStmt", "*ast.Ident"]]) ∧
    ((okNodes (marshalAST hC4 40 (some 0) [])).map
        (fun n => n.children.length) = [4]) :=
  ⟨rfl, rfl, rfl⟩

/-- C5, counterexample to the claim as stated: on a unit whose root kind
is outside the schema, processing panics with the unsupported-kind
message, but it is not true that no output document is produced — the
output file was already created (truncating any previous content) by
`os.Create` before marshalling began. -/
theorem C5_counterexample :
    processFile 20 "pkg.go" (.ok (hU, 0)) =
      .panicked [.create "pkg.json"]
        "unsupported AST node type: *ast.Package" ∧
    createdPaths [.create "pkg.json"] ≠ [] :=
  ⟨rfl, by simp [createdPaths]⟩

/-- C5 as amended: whenever marshalling a unit panics — that is,
whenever the descent reaches a node kind outside the declared schema, at
the root or at any depth, the panic propagating unchanged through every
frame — the panic carries the `unsupported AST node type` message, the
unit's processing halts with that panic and no document content is
written; the only filesystem effect is the prior creation of the (empty)
output file by `os.Create`. -/
theorem C5_unsupported_panic (fuel : Nat) (path : String) (h : Heap)
    (root : Nat) (m : String)
    (hp : run h fuel (.mar (some root)) [] = .panicMsg m) :
    (∃ ty, m = "unsupported AST node type: " ++ ty) ∧
    processFile fuel path (.ok (h, root)) =
      .panicked [.create (jsonPathOf path)] m ∧
    writtenPaths [FileEffect.create (jsonPathOf path)] = [] := by
  refine ⟨?_, ?_, rfl⟩
  · refine run_panic_unsupported h fuel _ _ _ ?_ hp
    intro x hx
    cases hx
  · simp [processFile, hp]

/-- Witness for C5 on the graph `hUNest`: the unit's root is a supported
`*ast.File` and the unsupported `*ast.Package` node sits in its
declaration list, so the panic fires below the root and propagates. -/
theorem C5_witness :
    processFile 20 "pkg.go" (Except.ok (hUNest, 0)) =
      .panicked [.create (jsonPathOf "pkg.go")]
        "unsupported AST node type: *ast.Package" ∧
    writtenPaths [FileEffect.create (jsonPathOf "pkg.go")] = [] :=
  (C5_unsupported_panic 20 "pkg.go" hUNest 0
    "unsupported AST node type: *ast.Package" rfl).2

/-- C6: serializing the same input twice, each run with its own fresh
(empty) visited set and no mutation of the node graph in between, yields
byte-identical rendered documents: the whole pipeline is a pure function
of the graph, the root and the fuel. -/
theorem C6_deterministic (h : Heap) (fuel : Nat) (root : Nat)
    (v1 v2 : List Nat) (hv1 : v1 = []) (hv2 : v2 = []) :
    renderRun h fuel root v1 = renderRun h fuel root v2 := by
  subst hv1
  subst hv2
  rfl

/-- Witness for C6: two runs on `hBad` from fresh visited sets. -/
theorem C6_witness : renderRun hBad 3 0 [] = renderRun hBad 3 0 [] :=
  C6_deterministic hBad 3 0 [] [] rfl rfl

/-- C7: every emitted node has a nonempty `type` (the concrete kind
name), and the rendered document contains the `type` key for every node
while each of `name`, `value`, `children`, `comments` is present exactly
when nonempty — never as a null or empty placeholder. -/
theorem C7_type_and_omission (h : Heap) (fuel : Nat) (t : Task)
    (v : List Nat) (ks : List ASTNode) (v' : List Nat)
    (he : run h fuel t v = .ok ks v') :
    (∀ n ∈ allNodesL ks, n.type ≠ "") ∧
    (∀ (cr co : String) (n : ASTNode),
      ("type" ∈ (renderFields cr co n).map Prod.fst) ∧
      ("name" ∈ (renderFields cr co n).map Prod.fst ↔ n.name ≠ "") ∧
      ("children" ∈ (renderFields cr co n).map Prod.fst ↔ n.children ≠ []) ∧
      ("value" ∈ (renderFields cr co n).map Prod.fst ↔ n.value ≠ none) ∧
      ("comments" ∈ (renderFields cr co n).map Prod.fst ↔ n.comments ≠ [])) := by
  constructor
  · intro n hn
    obtain ⟨g, hg, _, hty, _, _⟩ := run_shape h fuel t v ks v' he n hn
    rw [hty]
    exact typeName_ne_empty g hg
  · exact renderFields_keys

/-- Witness for C7 on the completed run over `hFile`. -/
theorem C7_witness :
    (∀ n ∈ allNodesL [(⟨"", "*ast.File",
        [⟨"", "*ast.Ident", [], some "main", []⟩,
         ⟨"", "*ast.GenDecl", [], none, []⟩], some "main", []⟩ : ASTNode)],
      n.type ≠ "") ∧
    (∀ (cr co : String) (n : ASTNode),
      ("type" ∈ (renderFields cr co n).map Prod.fst) ∧
      ("name" ∈ (renderFields cr co n).map Prod.fst ↔ n.name ≠ "") ∧
      ("children" ∈ (renderFields cr co n).map Prod.fst ↔ n.children ≠ []) ∧
      ("value" ∈ (renderFields cr co n).map Prod.fst ↔ n.value ≠ none) ∧
      ("comments" ∈ (renderFields cr co n).map Prod.fst ↔ n.comments ≠ [])) :=
  C7_type_and_omission hFile 20 (.mar (some 0)) []
    [⟨"", "*ast.File",
      [⟨"", "*ast.Ident", [], some "main", []⟩,
       ⟨"", "*ast.GenDecl", [], none, []⟩], some "main", []⟩] [2, 1, 0] rfl

/-- Aborting step of the walk: if every earlier entry completes, the
first failing `.go` unit stops the fold, and exactly the earlier `.go`
paths plus the failing one were handed to `processFile`. -/
theorem walkFold_abort (fuel : Nat) (e : WalkEntry) (fe : List FileEffect)
    (m : String) (hdir : e.isDir = false)
    (hgo : hasSuffix (baseOf e.path) ".go" = true)
    (hfail : processFile fuel e.path e.parse = .errorOut fe m) :
    ∀ (pre post : List WalkEntry) (att : List String)
      (effs : List FileEffect), (∀ u ∈ pre, unitOK fuel u) →
      ∃ effs', walkFold fuel (pre ++ e :: post) att effs =
        .errorOut (att ++ goPaths pre ++ [e.path]) effs' m := by
  intro pre
  induction pre with
  | nil =>
    intro post att effs _
    refine ⟨effs ++ fe, ?_⟩
    simp [walkFold, hdir, hgo, hfail, goPaths]
  | cons u pre ih =>
    intro post att effs hok
    have hu := hok u (List.mem_cons_self u pre)
    have hrest : ∀ x ∈ pre, unitOK fuel x :=
      fun x hx => hok x (List.mem_cons_of_mem u hx)
    rcases hu with hd | hng | ⟨fe2, hsucc⟩
    · obtain ⟨effs', hw⟩ := ih post att effs hrest
      exact ⟨effs', by simp [walkFold, hd, goPaths, hw]⟩
    · cases hid : u.isDir
      · obtain ⟨effs', hw⟩ := ih post att effs hrest
        exact ⟨effs', by simp [walkFold, hid, hng, goPaths, hw]⟩
      · obtain ⟨effs', hw⟩ := ih post att effs hrest
        exact ⟨effs', by simp [walkFold, hid, goPaths, hw]⟩
    · cases hid : u.isDir
      · cases hsu : hasSuffix (baseOf u.path) ".go"
        · obtain ⟨effs', hw⟩ := ih post att effs hrest
          exact ⟨effs', by simp [walkFold, hid, hsu, goPaths, hw]⟩
        · obtain ⟨effs', hw⟩ := ih post (att ++ [u.path]) (effs ++ fe2) hrest
          refine ⟨effs', ?_⟩
          simp [walkFold, hid, hsu, hsucc, goPaths, hw]
      · obtain ⟨effs', hw⟩ := ih post att effs hrest
        exact ⟨effs', by simp [walkFold, hid, goPaths, hw]⟩

/-- C8: in a directory run, when the entries before `e` all process
without error and the `.go` unit `e` fails, `processFolder` propagates
that first failure (wrapped with the folder path) and aborts the
remainder of the walk: the attempted units are exactly the earlier `.go`
paths plus `e`, none from `post`. -/
theorem C8_abort_on_failure (fuel : Nat) (folderPath : String)
    (pre post : List WalkEntry) (e : WalkEntry) (fe : List FileEffect)
    (m : String) (hpre : ∀ u ∈ pre, unitOK fuel u)
    (hdir : e.isDir = false)
    (hgo : hasSuffix (baseOf e.path) ".go" = true)
    (hfail : processFile fuel e.path e.parse = .errorOut fe m) :
    ∃ effs, processFolder fuel folderPath (pre ++ e :: post) =
      .errorOut (goPaths pre ++ [e.path]) effs
        ("error processing folder " ++ folderPath ++ ": " ++ m) := by
  obtain ⟨effs', hw⟩ :=
    walkFold_abort fuel e fe m hdir hgo hfail pre post [] [] hpre
  simp only [List.nil_append] at hw
  refine ⟨effs', ?_⟩
  simp [processFolder, hw]

/-- Witness for C8: a three-unit walk where the second unit's parse
fails; the first two units are attempted, the third is not, and the
wrapped parse error is the folder result. -/
theorem C8_witness :
    ∃ effs, processFolder 3 "d" [entA, entB, entC] =
      .errorOut ["a.go", "b.go"] effs
        ("error processing folder " ++ "d" ++ ": " ++
          ("error parsing Go source file " ++ "b.go" ++ ": " ++
            "expected declaration")) :=
  C8_abort_on_failure 3 "d" [entA] [entC] entB []
    ("error parsing Go source file " ++ "b.go" ++ ": " ++
      "expected declaration")
    (by
      intro u hu
      simp only [List.mem_singleton] at hu
      subst hu
      exact Or.inr (Or.inr ⟨_, rfl⟩))
    rfl rfl rfl

/-- C9, counterexample to the claim as stated: the emitted node for the
`*ast.File` kind — not a literal/identifier leaf — carries a `value`
(the package name), so `value` is not present only on leaf kinds. -/
theorem C9_counterexample :
    ((okNodes (marshalAST hFile 20 (some 0) [])).map ASTNode.type =
      ["*ast.File"]) ∧
    ((okNodes (marshalAST hFile 20 (some 0) [])).map ASTNode.value =
      [some "main"]) ∧
    ("*ast.File" ≠ "*ast.Ident" ∧ "*ast.File" ≠ "*ast.BasicLit") :=
  ⟨rfl, rfl, by simp, by simp⟩

/-- C9 as amended: an emitted node's `value` is present exactly when its
kind is `Ident` (identifier text), `BasicLit` (literal text) or `File`
(package-name identifier text); for every other kind it is absent. -/
theorem C9_value_kinds (h : Heap) (fuel : Nat) (t : Task) (v : List Nat)
    (ks : List ASTNode) (v' : List Nat) (he : run h fuel t v = .ok ks v') :
    ∀ n ∈ allNodesL ks, ((n.value).isSome = true ↔
      (n.type = "*ast.Ident" ∨ n.type = "*ast.BasicLit" ∨
        n.type = "*ast.File")) := by
  intro n hn
  obtain ⟨g, hg, _, hty, hvl, _⟩ := run_shape h fuel t v ks v' he n hn
  rw [hvl, hty]
  exact valueOf_isSome_iff h g hg

/-- Witness for C9: the node emitted by the completed run over `hBad`. -/
theorem C9_witness :
    ((⟨"", "*ast.BadExpr", [], none, []⟩ : ASTNode).value.isSome = true ↔
      ((⟨"", "*ast.BadExpr", [], none, []⟩ : ASTNode).type = "*ast.Ident" ∨
        (⟨"", "*ast.BadExpr", [], none, []⟩ : ASTNode).type = "*ast.BasicLit" ∨
        (⟨"", "*ast.BadExpr", [], none, []⟩ : ASTNode).type = "*ast.File")) :=
  C9_value_kinds hBad 3 (.mar (some 0)) []
    [⟨"", "*ast.BadExpr", [], none, []⟩] [0] rfl
    ⟨"", "*ast.BadExpr", [], none, []⟩ (by simp [allNodesL])

/-- C10: at its public boundary `marshalAST` returns nil without doing
anything for a nil input node and for a node whose identity is already in
the visited set; the empty emission list is exactly "the caller appends
nothing". -/
theorem C10_nil_and_visited (h : Heap) (fuel : Nat) (v : List Nat) :
    marshalAST h (fuel + 1) none v = .ok [] v ∧
    ∀ i ∈ v, marshalAST h (fuel + 1) (some i) v = .ok [] v := by
  constructor
  · rfl
  · intro i hi
    simp [marshalAST, run, hi]

/-- Witness for C10 at identity 7 already visited. -/
theorem C10_witness :
    marshalAST hBad 1 none [7] = .ok [] [7] ∧
    marshalAST hBad 1 (some 7) [7] = .ok [] [7] :=
  ⟨(C10_nil_and_visited hBad 0 [7]).1,
   (C10_nil_and_visited hBad 0 [7]).2 7 (by decide)⟩

end Go2Json
